import Mathlib

/-!
Shallow embedding of the task-runner implementation (src/index.ts) for
verification of its natural-language specification.

Conventions used throughout:
* The TypeScript status string `'...'` is the `pending` status of the spec;
  the other four statuses keep their names.
* Methods that call `this._owner.requestRerender()` are modelled as returning
  a `Bool` alongside the updated node, `true` exactly when a rerender was
  requested.
* Asynchronous control flow is modelled by explicit outcome values
  (`Except String α` for an operation that either resolves or rejects with an
  error message) and, where timing matters, by explicit timestamps.
-/

namespace TaskRunner

/-- `Status`, from `export type Status = '...' | 'done' | 'skip' | 'warn' | 'fail'`.
`pending` stands for the source's `'...'`. -/
inductive Status where
  | pending
  | done
  | skip
  | warn
  | fail
deriving DecidableEq, Fintype

/-- `statusStrength` record (index.ts lines 30–37):
`'...' ↦ 0, done ↦ 1, warn ↦ 2, fail ↦ 3, skip ↦ 4`. -/
def statusStrength : Status → Nat
  | .pending => 0
  | .done => 1
  | .warn => 2
  | .fail => 3
  | .skip => 4

/-- The mutable fields of a `Task` node that the verified claims depend on
(index.ts lines 94–104): `_status`, `_message`, `_msgCount`. -/
structure Task where
  _status : Status
  _message : String
  _msgCount : Nat
deriving DecidableEq

/-- A freshly constructed node: `_status = '...'`, `_message = ''`,
`_msgCount = 0` (field initialisers, index.ts lines 97–102). -/
def freshTask : Task := ⟨Status.pending, "", 0⟩

/-- The `status` setter (index.ts lines 117–125): only a strictly stronger
status is written, and only then is a rerender requested. The returned `Bool`
is `true` iff `this._owner.requestRerender()` was called. -/
def Task.setStatus (t : Task) (s : Status) : Task × Bool :=
  if statusStrength t._status < statusStrength s then
    (⟨s, t._message, t._msgCount⟩, true)
  else
    (t, false)

/-- `commonLen` on character lists: the number of leading positions at which
the two lists agree (index.ts lines 47–55: loop until first mismatch or the
end of the shorter string). -/
def commonLenList : List Char → List Char → Nat
  | a :: as, b :: bs => if a = b then commonLenList as bs + 1 else 0
  | _, _ => 0

/-- `commonLen(a, b)`: the length of the common prefix of two strings. -/
def commonLen (a b : String) : Nat :=
  commonLenList a.data b.data

/-- `combineStrings(a, b, count)` (index.ts lines 57–59):
the template literal `` `${a.slice(0, commonLen(a, b))} … [${count}]` `` —
note the space before and after the ellipsis character. -/
def combineStrings (a b : String) (count : Nat) : String :=
  String.mk (a.data.take (commonLen a b)) ++ " … [" ++ toString count ++ "]"

/-- Whether a character terminates an ANSI CSI sequence (final byte in the
range `@`–`~`). Part of the model of the external `strip-ansi` utility. -/
def isCsiFinal (c : Char) : Bool :=
  0x40 ≤ c.toNat && c.toNat ≤ 0x7E

/-- Scanner state for the model of the external `strip-ansi` utility:
plain text, just after an ESC, or inside a CSI sequence. -/
inductive AnsiMode where
  | text
  | esc
  | csi
deriving DecidableEq

/-- Model of the external `strip-ansi` black box as a one-pass scanner:
ESC-introduced CSI sequences (`ESC [ params finalByte`, which is all the
styling the program emits via `chalk`) are removed, and every other
character is left in place. -/
def stripAnsiGo : AnsiMode → List Char → List Char
  | _, [] => []
  | .text, c :: rest =>
      if c = '\x1b' then stripAnsiGo .esc rest else c :: stripAnsiGo .text rest
  | .esc, c :: rest =>
      if c = '[' then stripAnsiGo .csi rest else c :: stripAnsiGo .text rest
  | .csi, c :: rest =>
      if isCsiFinal c then stripAnsiGo .text rest else stripAnsiGo .csi rest

/-- `stripAnsiList`: strip styling from a character list, starting in plain
text. -/
def stripAnsiList (l : List Char) : List Char :=
  stripAnsiGo AnsiMode.text l

/-- `stripAnsi` on strings (external collaborator of index.ts). -/
def stripAnsi (s : String) : String :=
  String.mk (stripAnsiList s.data)

/-- `Task.addMessage` (index.ts lines 127–137): strips styling, bumps the
merge counter, stores the first message verbatim and returns without a
rerender; merges every later message via `combineStrings` and requests a
rerender. The `Bool` is `true` iff `this._owner.requestRerender()` ran. -/
def Task.addMessage (t : Task) (msg : String) : Task × Bool :=
  let stripped := stripAnsi msg
  let count := t._msgCount + 1
  if t._message.length = 0 then
    (⟨t._status, stripped, count⟩, false)
  else
    (⟨t._status, combineStrings t._message stripped count, count⟩, true)

/-- `Task.update` (index.ts lines 143–153), with the children represented by
the list of their current statuses: with at least one child, escalate to
`fail` if some child is `fail`, else to `warn` if some child is `warn`, else
to `done` if no child is still `'...'`; otherwise (and with no children)
leave the node unchanged. Status writes go through the escalating setter. -/
def Task.update (t : Task) (children : List Status) : Task :=
  if 0 < children.length then
    if children.any (fun c => c = Status.fail) then
      (t.setStatus Status.fail).1
    else if children.any (fun c => c = Status.warn) then
      (t.setStatus Status.warn).1
    else if !(children.any (fun c => c = Status.pending)) then
      (t.setStatus Status.done).1
    else
      t
  else
    t

/-- `performTask` (index.ts lines 75–92), modelled on the state of the owning
node. `body` is the settled outcome of `await currentTask.run(owner, task)`
followed by the wait on the subtasks: `.ok v` when it resolved with `v`,
`.error m` when it rejected with an error whose `message` is `m`. On success
the node escalates to `done` and the returned promise resolves with `v`; on
rejection the node escalates to `fail`, records the message, and the
rejection is re-thrown. -/
def performTask (body : Except String α) (owner : Task) : Task × Except String α :=
  match body with
  | .ok v => ((owner.setStatus Status.done).1, .ok v)
  | .error m =>
      let t1 := (owner.setStatus Status.fail).1
      let t2 := (t1.addMessage m).1
      (t2, .error m)

/-- The wrapped operation built by `runOptional` (index.ts lines 249–256),
acting on the ambient node (the `runOptional` subtask itself). `inner` is the
outcome of `await inTask()`. A rejection is caught: its message is recorded
via `setMessage`, the status escalates to `skip`, and the wrapper resolves
with `undefined` (`none`). -/
def runOptionalBody (inner : Except String α) (ambient : Task) :
    Task × Except String (Option α) :=
  match inner with
  | .ok v => (ambient, .ok (some v))
  | .error m =>
      let t1 := (ambient.addMessage m).1
      let t2 := (t1.setStatus Status.skip).1
      (t2, .ok none)

/-- `runOptional` (index.ts lines 245–257) as it affects its own node: the
wrapped operation runs under `performTask` (via `run`), so after the wrapper
settles the node additionally escalates to `done` on the success path. -/
def runOptional (inner : Except String α) (node : Task) :
    Task × Except String (Option α) :=
  let p := runOptionalBody inner node
  performTask p.2 p.1

/-- A sequence of `setStatus` calls on a node, applied left to right
(each call is the `status` setter, index.ts lines 117–125). -/
def applyStatuses (t : Task) (l : List Status) : Task :=
  l.foldl (fun t s => (t.setStatus s).1) t

/-- The pure escalation underlying the `status` setter: the incoming status
wins exactly when it is strictly stronger. -/
def escalate (cur incoming : Status) : Status :=
  if statusStrength cur < statusStrength incoming then incoming else cur

/-- The `Runner` fields relevant to the lifecycle claims
(index.ts lines 273–277): `_roots.length`, `_terminatedRoots`, and an
identity tag recording which construction (`new Runner()`) produced this
instance. -/
structure RunnerS where
  _roots : Nat
  _terminatedRoots : Nat
  _instanceId : Nat
deriving DecidableEq

/-- The module-level mutable state of index.ts: the `currentRunner` variable
(line 28) plus a count of how many times `new Runner()` has executed. -/
structure ModuleState where
  currentRunner : Option RunnerS
  runnersConstructed : Nat
deriving DecidableEq

/-- Process start: `currentRunner = undefined`, no runner ever constructed. -/
def initialModuleState : ModuleState := ⟨none, 0⟩

/-- The top-level branch of `run` (index.ts lines 221–227): with no ambient
task, construct a `Runner` only if `currentRunner` is unset, then push the
new root onto `currentRunner._roots`. Nothing else in the source ever
assigns `currentRunner`. -/
def topLevelRunStart (s : ModuleState) : ModuleState :=
  match s.currentRunner with
  | none =>
      ⟨some ⟨1, 0, s.runnersConstructed⟩, s.runnersConstructed + 1⟩
  | some r =>
      ⟨some ⟨r._roots + 1, r._terminatedRoots, r._instanceId⟩, s.runnersConstructed⟩

/-- `Runner.allDone` (index.ts lines 346–358) as it affects the module state:
it renders, finalizes the backend, restores the console and prints logs, but
never assigns `currentRunner`, so the module state is unchanged. -/
def allDone (s : ModuleState) : ModuleState := s

/-- `Runner.rootDone` (index.ts lines 339–344) reached from the `finally` of
a settling root: increment `_terminatedRoots` and, when it equals
`_roots.length`, invoke `allDone`. -/
def rootDone (s : ModuleState) : ModuleState :=
  match s.currentRunner with
  | none => s
  | some r =>
      let r2 : RunnerS := ⟨r._roots, r._terminatedRoots + 1, r._instanceId⟩
      let s2 : ModuleState := ⟨some r2, s.runnersConstructed⟩
      if r2._terminatedRoots = r2._roots then allDone s2 else s2

/-- The `Runner` scheduling state for redraw coalescing
(index.ts lines 277, 328–337): whether an immediate is pending
(`_rerender` non-undefined) and how many frames have been painted
(calls of `this._backend(...)`). -/
structure SchedState where
  _rerender : Bool
  paints : Nat
deriving DecidableEq

/-- `Runner.requestRerender` (index.ts lines 328–337): schedule an immediate
only when none is pending; nothing is painted synchronously. -/
def requestRerender (s : SchedState) : SchedState :=
  if s._rerender then s else ⟨true, s.paints⟩

/-- The end of the scheduler tick: if an immediate was scheduled it fires
exactly once — updating the roots, painting one frame via `this._render()`,
and clearing `this._rerender` (index.ts lines 330–335). -/
def fireScheduledTick (s : SchedState) : SchedState :=
  if s._rerender then ⟨false, s.paints + 1⟩ else s

/-- Timing model of `Task.wait` (index.ts lines 208–213). Each child is a
pair `(appended, settles)` of timestamps: when it was pushed onto
`_subTasks` and when its own `wait()` resolves. `t0` is the time
`this._completion` settles; at that moment the code runs
`this._subTasks.map((t) => t.wait())`, taking a one-time snapshot of the
children present (those with `appended ≤ t0`), and `Promise.all` resolves
once the slowest of that fixed snapshot has resolved. -/
def waitResolveTime (t0 : Nat) (children : List (Nat × Nat)) : Nat :=
  children.foldl (fun acc c => if c.1 ≤ t0 then max acc c.2 else acc) t0

/-- The truncation step of `Task.render` (index.ts lines 173–180): when the
styling-stripped visual length exceeds the terminal width, keep the first
`available + ansiCount - 2` UTF-16 units of the raw line and append `" …"`.
(`available ≥ 2` is assumed so the JS subtraction is the Nat one.) -/
def renderTruncate (line : String) (available : Nat) : String :=
  let visualLength := (stripAnsi line).length
  let ansiCount := line.length - visualLength
  if available < visualLength then
    String.mk (line.data.take (available + ansiCount - 2)) ++ " …"
  else
    line

/-! ### Helper lemmas -/

theorem setStatus_fst (t : Task) (s : Status) :
    (t.setStatus s).1 = ⟨escalate t._status s, t._message, t._msgCount⟩ := by
  simp only [Task.setStatus, escalate]
  split <;> rfl

theorem applyStatuses_status (l : List Status) :
    ∀ t : Task, (applyStatuses t l)._status = l.foldl escalate t._status := by
  induction l with
  | nil => intro t; rfl
  | cons s l ih =>
      intro t
      simp only [applyStatuses, List.foldl_cons] at *
      rw [ih, setStatus_fst]

theorem escalate_left_le (c s : Status) :
    statusStrength c ≤ statusStrength (escalate c s) := by
  simp only [escalate]
  split
  · omega
  · exact Nat.le_refl _

theorem escalate_right_le (c s : Status) :
    statusStrength s ≤ statusStrength (escalate c s) := by
  revert c s
  decide

theorem escalate_cases (c s : Status) : escalate c s = c ∨ escalate c s = s := by
  simp only [escalate]
  split
  · exact Or.inr rfl
  · exact Or.inl rfl

theorem foldl_escalate_init_le (l : List Status) :
    ∀ c : Status, statusStrength c ≤ statusStrength (l.foldl escalate c) := by
  induction l with
  | nil => intro c; exact Nat.le_refl _
  | cons s l ih =>
      intro c
      exact Nat.le_trans (escalate_left_le c s) (ih (escalate c s))

theorem foldl_escalate_mem (l : List Status) :
    ∀ c : Status, l.foldl escalate c ∈ c :: l := by
  induction l with
  | nil => intro c; exact List.mem_singleton.mpr rfl
  | cons s l ih =>
      intro c
      simp only [List.foldl_cons]
      have h := ih (escalate c s)
      rcases List.mem_cons.mp h with h2 | h2
      · rw [h2]
        rcases escalate_cases c s with h3 | h3
        · rw [h3]
          exact List.mem_cons_self _ _
        · rw [h3]
          exact List.mem_cons_of_mem _ (List.mem_cons_self _ _)
      · exact List.mem_cons_of_mem _ (List.mem_cons_of_mem _ h2)

theorem foldl_escalate_ge (l : List Status) :
    ∀ c : Status, ∀ s ∈ l, statusStrength s ≤ statusStrength (l.foldl escalate c) := by
  induction l with
  | nil => intro c s hs; exact absurd hs (List.not_mem_nil s)
  | cons x l ih =>
      intro c s hs
      simp only [List.foldl_cons]
      rcases List.mem_cons.mp hs with h | h
      · subst h
        exact Nat.le_trans (escalate_right_le c s) (foldl_escalate_init_le l (escalate c s))
      · exact ih (escalate c x) s h

theorem escalate_left_comm (b a1 a2 : Status) :
    escalate (escalate b a1) a2 = escalate (escalate b a2) a1 := by
  revert b a1 a2
  decide

theorem foldl_escalate_perm {l1 l2 : List Status} (h : l1.Perm l2) :
    ∀ c : Status, l1.foldl escalate c = l2.foldl escalate c := by
  induction h with
  | nil => intro c; rfl
  | cons x _ ih =>
      intro c
      simp only [List.foldl_cons]
      exact ih (escalate c x)
  | swap x y l =>
      intro c
      simp only [List.foldl_cons]
      rw [escalate_left_comm]
  | trans _ _ ih1 ih2 =>
      intro c
      rw [ih1 c, ih2 c]

theorem statusStrength_injective (a b : Status) :
    statusStrength a = statusStrength b → a = b := by
  revert a b
  decide

theorem any_eq_exists (children : List Status) (s : Status) :
    children.any (fun c => c = s) = true ↔ ∃ c ∈ children, c = s := by
  simp [List.any_eq_true]

/-! ### Claim theorems -/

/-- C1: for every sequence of `setStatus` calls on a node, the final status is
an element of the sequence that every status ever set ranks at or below
(i.e. it is the highest-ranked status ever set), independently of call order;
and a `setStatus` call whose argument ranks lower than or equal to the
current status leaves the node unchanged. The concrete example:
`setStatus('fail')` then `setStatus('warn')` leaves the status at `fail`. -/
theorem c1_status_escalation_monotonic (l : List Status) (h : l ≠ []) :
    (applyStatuses freshTask l)._status ∈ l
  ∧ (∀ s ∈ l, statusStrength s ≤ statusStrength (applyStatuses freshTask l)._status)
  ∧ (∀ l2 : List Status, l.Perm l2 →
      (applyStatuses freshTask l2)._status = (applyStatuses freshTask l)._status)
  ∧ (∀ (t : Task) (s : Status), statusStrength s ≤ statusStrength t._status →
      (t.setStatus s).1 = t)
  ∧ (applyStatuses freshTask [Status.fail, Status.warn])._status = Status.fail := by
  have hst : ∀ l' : List Status,
      (applyStatuses freshTask l')._status = l'.foldl escalate Status.pending :=
    fun l' => applyStatuses_status l' freshTask
  refine ⟨?_, ?_, ?_, ?_, by decide⟩
  · rw [hst]
    have hm := foldl_escalate_mem l Status.pending
    rcases List.mem_cons.mp hm with h2 | h2
    · rw [h2]
      obtain ⟨a, l', rfl⟩ := List.exists_cons_of_ne_nil h
      have ha := foldl_escalate_ge (a :: l') Status.pending a (List.mem_cons_self a l')
      rw [h2] at ha
      have haa : a = Status.pending :=
        statusStrength_injective a Status.pending (Nat.le_antisymm ha (Nat.zero_le _))
      exact haa ▸ List.mem_cons_self _ _
    · exact h2
  · intro s hs
    rw [hst]
    exact foldl_escalate_ge l Status.pending s hs
  · intro l2 hp
    rw [hst, hst]
    exact (foldl_escalate_perm hp Status.pending).symm
  · intro t s hle
    simp only [Task.setStatus]
    rw [if_neg (Nat.not_lt.mpr hle)]

/-- C1 witness: the theorem applied to the sequence `[fail, warn]`. -/
theorem c1_witness :
    (applyStatuses freshTask [Status.fail, Status.warn])._status
      ∈ [Status.fail, Status.warn] :=
  (c1_status_escalation_monotonic [Status.fail, Status.warn] (by decide)).1

/-- C2: on a node with at least one child, `update()` escalates to `fail` if
some child is `fail`; otherwise to `warn` if some child is `warn`; otherwise
to `done` if no child is `pending`; otherwise it leaves the node unchanged.
In particular a pending parent with children `{done, warn}` aggregates to
`warn`, with `{done, fail}` to `fail`, and with `{pending, done}` stays
`pending`. -/
theorem c2_update_aggregation (t : Task) (children : List Status)
    (h : children ≠ []) :
    ((∃ c ∈ children, c = Status.fail) →
        t.update children = (t.setStatus Status.fail).1)
  ∧ ((¬ ∃ c ∈ children, c = Status.fail) → (∃ c ∈ children, c = Status.warn) →
        t.update children = (t.setStatus Status.warn).1)
  ∧ ((¬ ∃ c ∈ children, c = Status.fail) → (¬ ∃ c ∈ children, c = Status.warn) →
        (¬ ∃ c ∈ children, c = Status.pending) →
        t.update children = (t.setStatus Status.done).1)
  ∧ ((¬ ∃ c ∈ children, c = Status.fail) → (¬ ∃ c ∈ children, c = Status.warn) →
        (∃ c ∈ children, c = Status.pending) →
        t.update children = t)
  ∧ (freshTask.update [Status.done, Status.warn])._status = Status.warn
  ∧ (freshTask.update [Status.done, Status.fail])._status = Status.fail
  ∧ (freshTask.update [Status.pending, Status.done])._status = Status.pending := by
  have hlen : 0 < children.length := List.length_pos.mpr h
  refine ⟨?_, ?_, ?_, ?_, by decide, by decide, by decide⟩
  · intro hf
    have hf' := (any_eq_exists children Status.fail).mpr hf
    simp [Task.update, hlen, hf']
  · intro hf hw
    have hf' : children.any (fun c => c = Status.fail) = false := by
      rw [Bool.eq_false_iff]
      intro hx
      exact hf ((any_eq_exists children Status.fail).mp hx)
    have hw' := (any_eq_exists children Status.warn).mpr hw
    simp [Task.update, hlen, hf', hw']
  · intro hf hw hp
    have hf' : children.any (fun c => c = Status.fail) = false := by
      rw [Bool.eq_false_iff]
      intro hx
      exact hf ((any_eq_exists children Status.fail).mp hx)
    have hw' : children.any (fun c => c = Status.warn) = false := by
      rw [Bool.eq_false_iff]
      intro hx
      exact hw ((any_eq_exists children Status.warn).mp hx)
    have hp' : children.any (fun c => c = Status.pending) = false := by
      rw [Bool.eq_false_iff]
      intro hx
      exact hp ((any_eq_exists children Status.pending).mp hx)
    simp [Task.update, hlen, hf', hw', hp']
  · intro hf hw hp
    have hf' : children.any (fun c => c = Status.fail) = false := by
      rw [Bool.eq_false_iff]
      intro hx
      exact hf ((any_eq_exists children Status.fail).mp hx)
    have hw' : children.any (fun c => c = Status.warn) = false := by
      rw [Bool.eq_false_iff]
      intro hx
      exact hw ((any_eq_exists children Status.warn).mp hx)
    have hp' := (any_eq_exists children Status.pending).mpr hp
    simp [Task.update, hlen, hf', hw', hp']

/-- C2 witness: the theorem applied to a pending parent with children
`{done, fail}`. -/
theorem c2_witness :
    freshTask.update [Status.done, Status.fail]
      = (freshTask.setStatus Status.fail).1 :=
  (c2_update_aggregation freshTask [Status.done, Status.fail] (by decide)).1
    ⟨Status.fail, by decide, rfl⟩

/-- C3 counterexample: a pending parent whose only child has settled with
`skip` is updated to `done`, not to `skip`, even though `skip` ranks strictly
above `done` (and above `fail`) — so `update()` does not compute the worst
status among the children combined with the parent's own status. -/
theorem c3_counterexample :
    (freshTask.update [Status.skip])._status = Status.done
  ∧ Status.done ≠ Status.skip
  ∧ statusStrength Status.done < statusStrength Status.skip := by
  decide

/-- C3 amended: `update()` recomputes the status only through the three
scans `fail` / `warn` / no-`pending`; a `skip` child counts as settled and
contributes at most `done`. In particular a pending parent all of whose
children are `skip` becomes `done` (not `skip`). -/
theorem c3_skip_children_update_done (children : List Status)
    (h : children ≠ []) (hall : ∀ c ∈ children, c = Status.skip) :
    (freshTask.update children)._status = Status.done := by
  have hlen : 0 < children.length := List.length_pos.mpr h
  have hf : children.any (fun c => c = Status.fail) = false := by
    rw [Bool.eq_false_iff]
    intro hx
    obtain ⟨c, hc, hcf⟩ := (any_eq_exists children Status.fail).mp hx
    rw [hall c hc] at hcf
    exact absurd hcf (by decide)
  have hw : children.any (fun c => c = Status.warn) = false := by
    rw [Bool.eq_false_iff]
    intro hx
    obtain ⟨c, hc, hcf⟩ := (any_eq_exists children Status.warn).mp hx
    rw [hall c hc] at hcf
    exact absurd hcf (by decide)
  have hp : children.any (fun c => c = Status.pending) = false := by
    rw [Bool.eq_false_iff]
    intro hx
    obtain ⟨c, hc, hcf⟩ := (any_eq_exists children Status.pending).mp hx
    rw [hall c hc] at hcf
    exact absurd hcf (by decide)
  simp [Task.update, hlen, hf, hw, hp, Task.setStatus, freshTask, statusStrength]

/-- C3 witness: the amended theorem applied to the single-child list
`[skip]`. -/
theorem c3_witness : (freshTask.update [Status.skip])._status = Status.done :=
  c3_skip_children_update_done [Status.skip] (by decide) (by decide)

/-- C4 counterexample: after `setMessage("file1.txt")` and
`setMessage("file2.txt")` the stored message is not `"file… [2]"` — the
template in `combineStrings` puts a space between the prefix and the
ellipsis. -/
theorem c4_counterexample :
    (((freshTask.addMessage "file1.txt").1.addMessage "file2.txt").1)._message
      ≠ "file… [2]" := by
  decide

/-- C4 amended: the stored message is exactly `"file … [2]"` — the longest
common prefix `"file"` (of length `commonLen "file1.txt" "file2.txt" = 4`),
then a space, the ellipsis, a space, and the running count in brackets, as
produced by `combineStrings`. -/
theorem c4_message_compression :
    (((freshTask.addMessage "file1.txt").1.addMessage "file2.txt").1)._message
      = "file … [2]"
  ∧ combineStrings "file1.txt" "file2.txt" 2 = "file … [2]"
  ∧ commonLen "file1.txt" "file2.txt" = 4 := by
  decide

/-- C5: for an operation that always rejects with message `"boom"`,
`runOptional` resolves (with `undefined`, i.e. `.ok none` — the rejection
never propagates), and the node ends with status `skip` and stored message
`"boom"`. -/
theorem c5_runOptional_never_propagates :
    (runOptional (Except.error "boom" : Except String Unit) freshTask).2
      = Except.ok none
  ∧ ((runOptional (Except.error "boom" : Except String Unit) freshTask).1)._status
      = Status.skip
  ∧ ((runOptional (Except.error "boom" : Except String Unit) freshTask).1)._message
      = "boom" :=
  ⟨rfl, by decide, by decide⟩

/-- C6 (code bug evidence): after the only root of a session settles (which
runs `rootDone` and hence `allDone`), the module-level `currentRunner` is
never cleared, so a subsequent top-level `run` call reuses the same `Runner`
instance (`_instanceId = 0`, registered as its second root) and
`new Runner()` has still executed exactly once — no fresh runner, terminal
session or logging interception is created. -/
theorem c6_runner_reused_not_discarded :
    rootDone (topLevelRunStart initialModuleState)
      = ModuleState.mk (some (RunnerS.mk 1 1 0)) 1
  ∧ topLevelRunStart (rootDone (topLevelRunStart initialModuleState))
      = ModuleState.mk (some (RunnerS.mk 2 1 0)) 1
  ∧ (topLevelRunStart (rootDone (topLevelRunStart initialModuleState))).runnersConstructed
      = 1 := by
  decide

/-- C7 counterexample: `wait()` takes a one-time snapshot of `_subTasks` when
`this._completion` settles (time 1 here); with children `(appended 0,
settles 10)` and `(appended 5, settles 20)` it resolves at time 10, so the
second child — appended mid-wait, before `wait()` resolved — is never waited
on, contradicting the claimed re-check of the live child sequence. -/
theorem c7_counterexample :
    waitResolveTime 1 [(0, 10), (5, 20)] = 10
  ∧ 5 ≤ waitResolveTime 1 [(0, 10), (5, 20)]
  ∧ ¬ 20 ≤ waitResolveTime 1 [(0, 10), (5, 20)] := by
  decide

theorem waitFold_init_le (t0 : Nat) (children : List (Nat × Nat)) :
    ∀ acc : Nat,
      acc ≤ children.foldl (fun acc c => if c.1 ≤ t0 then max acc c.2 else acc) acc := by
  induction children with
  | nil => intro acc; exact Nat.le_refl _
  | cons c l ih =>
      intro acc
      simp only [List.foldl_cons]
      refine Nat.le_trans ?_ (ih _)
      by_cases h : c.1 ≤ t0
      · simp [h, Nat.le_max_left]
      · simp [h]

theorem waitFold_mem_le (t0 : Nat) (children : List (Nat × Nat)) :
    ∀ acc : Nat, ∀ p ∈ children, p.1 ≤ t0 →
      p.2 ≤ children.foldl (fun acc c => if c.1 ≤ t0 then max acc c.2 else acc) acc := by
  induction children with
  | nil => intro acc p hp _; exact absurd hp (List.not_mem_nil p)
  | cons c l ih =>
      intro acc p hp hpt
      simp only [List.foldl_cons]
      rcases List.mem_cons.mp hp with h | h
      · subst h
        refine Nat.le_trans ?_ (waitFold_init_le t0 l _)
        simp [hpt, Nat.le_max_right]
      · exact ih _ p h hpt

/-- C7 amended: `wait()` resolves no earlier than the settlement of the
node's own operation, and no earlier than the resolution of every child
already present at that settlement; the child list is snapshotted once at
that moment (`this._subTasks.map`), not re-checked after each child
resolves, so later-appended children may be missed (see the
counterexample). -/
theorem c7_wait_snapshot (t0 : Nat) (children : List (Nat × Nat)) :
    t0 ≤ waitResolveTime t0 children
  ∧ ∀ p ∈ children, p.1 ≤ t0 → p.2 ≤ waitResolveTime t0 children :=
  ⟨waitFold_init_le t0 children t0,
    fun p hp hpt => waitFold_mem_le t0 children t0 p hp hpt⟩

/-- C7 witness: the amended theorem applied to one child present at the
snapshot. -/
theorem c7_witness : 10 ≤ waitResolveTime 1 [(0, 10)] :=
  (c7_wait_snapshot 1 [(0, 10)]).2 (0, 10) (by decide) (by decide)

theorem stripAnsiGo_length_le (l : List Char) :
    ∀ m : AnsiMode, (stripAnsiGo m l).length ≤ l.length := by
  induction l with
  | nil => intro m; cases m <;> simp [stripAnsiGo]
  | cons c rest ih =>
      intro m
      cases m with
      | text =>
          simp only [stripAnsiGo]
          by_cases h : c = '\x1b'
          · simp only [h, if_pos rfl]
            exact Nat.le_succ_of_le (ih .esc)
          · rw [if_neg h]
            simp only [List.length_cons]
            exact Nat.succ_le_succ (ih .text)
      | esc =>
          simp only [stripAnsiGo]
          by_cases h : c = '['
          · rw [if_pos h]
            exact Nat.le_succ_of_le (ih .csi)
          · rw [if_neg h]
            simp only [List.length_cons]
            exact Nat.succ_le_succ (ih .text)
      | csi =>
          simp only [stripAnsiGo]
          by_cases h : isCsiFinal c = true
          · rw [if_pos h]
            exact Nat.le_succ_of_le (ih .text)
          · rw [if_neg h]
            exact Nat.le_succ_of_le (ih .csi)

theorem stripAnsiGo_text_of_not_mem (l : List Char) (h : '\x1b' ∉ l) :
    stripAnsiGo AnsiMode.text l = l := by
  induction l with
  | nil => rfl
  | cons c rest ih =>
      have hc : ¬ c = '\x1b' := fun hx => h (hx ▸ List.mem_cons_self c rest)
      have hr : '\x1b' ∉ rest := fun hx => h (List.mem_cons_of_mem c hx)
      simp only [stripAnsiGo, if_neg hc]
      rw [ih hr]

theorem stripAnsiGo_text_length_lt (l : List Char) (h : '\x1b' ∈ l) :
    (stripAnsiGo AnsiMode.text l).length < l.length := by
  induction l with
  | nil => exact absurd h (List.not_mem_nil _)
  | cons c rest ih =>
      by_cases hc : c = '\x1b'
      · simp only [stripAnsiGo, if_pos hc, List.length_cons]
        exact Nat.lt_succ_of_le (stripAnsiGo_length_le rest .esc)
      · have hr : '\x1b' ∈ rest := by
          rcases List.mem_cons.mp h with h2 | h2
          · exact absurd h2.symm hc
          · exact h2
        simp only [stripAnsiGo, if_neg hc, List.length_cons]
        exact Nat.succ_lt_succ (ih hr)

theorem esc_not_mem_of_stripAnsi_eq (line : String) (h : stripAnsi line = line) :
    '\x1b' ∉ line.data := by
  intro hmem
  have hdata : stripAnsiList line.data = line.data := congrArg String.data h
  have hlt := stripAnsiGo_text_length_lt line.data hmem
  rw [show stripAnsiGo AnsiMode.text line.data = stripAnsiList line.data from rfl,
    hdata] at hlt
  exact Nat.lt_irrefl _ hlt

/-- C8 counterexample: a line of visual width 85 (a red SGR sequence, 85
characters `a`, then the reset sequence) truncated at terminal width 80 still
has visual width 85 — the raw `slice` keeps 83 visible characters because it
counts the trailing reset's bytes as if they preceded the cutoff — and the
reset sequence `ESC [ 3 9 m` is dropped from the output rather than
preserved beyond the cutoff. -/
theorem c8_counterexample :
    (stripAnsi ("\x1b[31m" ++ String.mk (List.replicate 85 'a') ++ "\x1b[39m")).length
      = 85
  ∧ 80 < (stripAnsi (renderTruncate
      ("\x1b[31m" ++ String.mk (List.replicate 85 'a') ++ "\x1b[39m") 80)).length
  ∧ ¬ List.IsInfix "\x1b[39m".data (renderTruncate
      ("\x1b[31m" ++ String.mk (List.replicate 85 'a') ++ "\x1b[39m") 80).data := by
  set_option maxRecDepth 4000 in decide

/-- C8 amended: for a line free of styling codes whose width exceeds the
terminal width (of at least 2 columns), the truncated render fits exactly —
its visual width equals the terminal width, it ends with the ellipsis
(suffix `" …"`), and it contains no styling codes to lose. Styling bytes
located beyond the cutoff are, however, dropped, not preserved (see the
counterexample). -/
theorem c8_truncate_plain (line : String) (available : Nat)
    (hplain : stripAnsi line = line) (hlong : available < line.length)
    (h2 : 2 ≤ available) :
    (renderTruncate line available).length = available
  ∧ List.IsSuffix " …".data (renderTruncate line available).data
  ∧ stripAnsi (renderTruncate line available) = renderTruncate line available := by
  have hd : renderTruncate line available
      = String.mk (line.data.take (available - 2)) ++ " …" := by
    simp only [renderTruncate, hplain]
    rw [if_pos hlong]
    simp
  have hdata : (renderTruncate line available).data
      = line.data.take (available - 2) ++ " …".data := by
    rw [hd]
    rfl
  have hlen : line.data.length = line.length := rfl
  refine ⟨?_, ?_, ?_⟩
  · rw [hd]
    show (line.data.take (available - 2) ++ " …".data).length = available
    simp only [List.length_append, List.length_take]
    rw [hlen]
    have hmin : min (available - 2) line.length = available - 2 :=
      Nat.min_eq_left (by omega)
    rw [hmin]
    have hell : (" …".data).length = 2 := rfl
    rw [hell]
    omega
  · rw [hdata]
    exact List.suffix_append _ _
  · have hesc : '\x1b' ∉ line.data := esc_not_mem_of_stripAnsi_eq line hplain
    have hesc2 : '\x1b' ∉ (renderTruncate line available).data := by
      rw [hdata]
      intro hx
      rcases List.mem_append.mp hx with hx | hx
      · exact hesc (List.take_subset _ _ hx)
      · exact absurd hx (by decide)
    show String.mk (stripAnsiList (renderTruncate line available).data)
      = renderTruncate line available
    rw [show stripAnsiList (renderTruncate line available).data
        = stripAnsiGo AnsiMode.text (renderTruncate line available).data from rfl]
    rw [stripAnsiGo_text_of_not_mem _ hesc2]

/-- C8 witness: the amended theorem applied to a plain 100-character line at
terminal width 80. -/
theorem c8_witness :
    (renderTruncate (String.mk (List.replicate 100 'b')) 80).length = 80 :=
  (c8_truncate_plain (String.mk (List.replicate 100 'b')) 80 (by decide)
    (by decide) (by decide)).1

theorem requestRerender_iterate_pending (p : Nat) :
    ∀ n : Nat, requestRerender^[n] ⟨true, p⟩ = ⟨true, p⟩ := by
  intro n
  induction n with
  | zero => rfl
  | succ k ih =>
      rw [Function.iterate_succ_apply, show requestRerender ⟨true, p⟩ = ⟨true, p⟩ from rfl]
      exact ih

/-- C9: any number `n ≥ 1` of rerender requests within one scheduler tick
(starting with no redraw scheduled) paint nothing synchronously, and when the
single scheduled immediate fires at the tick boundary exactly one frame is
painted and the pending flag is cleared. -/
theorem c9_redraw_coalescing (n p : Nat) (h : 1 ≤ n) :
    (requestRerender^[n] ⟨false, p⟩).paints = p
  ∧ fireScheduledTick (requestRerender^[n] ⟨false, p⟩) = ⟨false, p + 1⟩ := by
  obtain ⟨k, rfl⟩ : ∃ k, n = k + 1 := ⟨n - 1, by omega⟩
  rw [Function.iterate_succ_apply,
    show requestRerender ⟨false, p⟩ = ⟨true, p⟩ from rfl,
    requestRerender_iterate_pending p k]
  exact ⟨rfl, rfl⟩

/-- C9 witness: three requests in one tick, one paint. -/
theorem c9_witness :
    fireScheduledTick (requestRerender^[3] ⟨false, 0⟩) = ⟨false, 1⟩ :=
  (c9_redraw_coalescing 3 0 (by decide)).2

/-- C10: `addMessage` requests a redraw exactly when the stored message was
already non-empty (the merge path); when the stored message is empty — in
particular on the very first `setMessage` of a node — it stores the
styling-stripped text and requests no redraw. -/
theorem c10_first_message_no_redraw (t : Task) (msg : String) :
    ((t.addMessage msg).2 = true ↔ t._message.length ≠ 0)
  ∧ (t._message = "" → (t.addMessage msg).1._message = stripAnsi msg)
  ∧ (freshTask.addMessage msg).2 = false := by
  refine ⟨?_, ?_, ?_⟩
  · simp only [Task.addMessage]
    by_cases h : t._message.length = 0
    · simp [h]
    · simp [h]
  · intro h
    have h0 : t._message.length = 0 := by rw [h]; rfl
    simp only [Task.addMessage]
    simp [h0]
  · simp only [Task.addMessage]
    rfl

/-- C10 witness: the first message of a fresh node is stored stripped, with
no redraw. -/
theorem c10_witness :
    (freshTask.addMessage "hi").1._message = stripAnsi "hi" :=
  (c10_first_message_no_redraw freshTask "hi").2.1 rfl

end TaskRunner
